import Mathlib

/-!
Verification of the UK-Heatmap catchment / region / attribution engine.

The repository builds axis-aligned square catchments around provider
locations (shapely `box` polygons), merges nearby catchments, decomposes
overlapping catchments into regions, and attributes customer events to
regions.  All geometries that appear in the pipeline are finite unions of
axis-aligned rectangles, which we model exactly as `List Rect` with
rational coordinates.  Intersection, difference, area and point
containment are the exact set-theoretic operations on such unions, which
is what the shapely calls in the source compute.
-/

/-- An axis-aligned closed rectangle `[x1, x2] × [y1, y2]` with rational
coordinates.  A rectangle with `x2 < x1` or `y2 < y1` is empty; one with
`x1 = x2` or `y1 = y2` is degenerate (zero area). -/
structure Rect where
  x1 : ℚ
  x2 : ℚ
  y1 : ℚ
  y2 : ℚ
deriving DecidableEq, Repr, Inhabited

/-- The rectangle is nonempty as a closed set (it may still be a segment
or a single point). -/
def Rect.nonemptyB (r : Rect) : Bool :=
  decide (r.x1 ≤ r.x2 ∧ r.y1 ≤ r.y2)

/-- The rectangle has positive area. -/
def Rect.positiveB (r : Rect) : Bool :=
  decide (r.x1 < r.x2 ∧ r.y1 < r.y2)

/-- Intersection of two rectangles (possibly empty / degenerate). -/
def Rect.interR (r s : Rect) : Rect :=
  ⟨max r.x1 s.x1, min r.x2 s.x2, max r.y1 s.y1, min r.y2 s.y2⟩

/-- A geometry: a finite union of rectangles (the rectangles may overlap
or touch; the geometry denotes the union of their closed point sets). -/
abbrev Geom := List Rect

/-- shapely `a.intersects(b)`: the closed sets share at least one point
(touching boundaries count). -/
def Geom.intersectsB (g h : Geom) : Bool :=
  g.any fun r => h.any fun s => (r.interR s).nonemptyB

/-- shapely `a.intersection(b)` for unions of rectangles: all pairwise
rectangle intersections that are nonempty as closed sets.  Degenerate
(zero-area) pieces are kept, as shapely keeps lower-dimensional
intersection pieces; they contribute nothing to `Geom.area`. -/
def Geom.inter (g h : Geom) : Geom :=
  (g.flatMap fun r => h.map fun s => r.interR s).filter Rect.nonemptyB

/-- The closure of `r` minus the interior of `s`, decomposed into at most
four rectangles of positive area.  This is shapely polygon difference
restricted to rectangles: lower-dimensional residue is dropped. -/
def Rect.diffR (r s : Rect) : List Rect :=
  if ! r.positiveB then [] else
  let t := r.interR s
  if ! t.positiveB then [r] else
    [⟨r.x1, t.x1, r.y1, r.y2⟩, ⟨t.x2, r.x2, r.y1, r.y2⟩,
     ⟨t.x1, t.x2, r.y1, t.y1⟩, ⟨t.x1, t.x2, t.y2, r.y2⟩].filter Rect.positiveB

/-- shapely `a.difference(b)`: subtract every rectangle of `h` from every
piece of `g`.  The result is empty (`[]`) exactly when the difference has
zero area, matching `is_empty` on shapely polygon differences. -/
def Geom.diff (g h : Geom) : Geom :=
  h.foldl (fun acc s => acc.flatMap fun r => r.diffR s) g

/-- The sorted list of adjacent pairs of a list of rationals: all pairs
`(a, b)` with `a < b` from the list such that no listed value lies
strictly between them.  Used for coordinate compression. -/
def cellMids (l : List ℚ) : List (ℚ × ℚ) :=
  l.flatMap fun a =>
    (l.filter fun b => decide (a < b) && l.all fun c => ! decide (a < c ∧ c < b)).map
      fun b => (a, b)

/-- The elementary cells of the coordinate compression of a geometry:
products of adjacent x-intervals and adjacent y-intervals of the
rectangle corner coordinates. -/
def Geom.cellList (g : Geom) : List ((ℚ × ℚ) × (ℚ × ℚ)) :=
  let xs := (g.flatMap fun r => [r.x1, r.x2]).dedup
  let ys := (g.flatMap fun r => [r.y1, r.y2]).dedup
  (cellMids xs).flatMap fun px => (cellMids ys).map fun py => (px, py)

/-- Whether the center of an elementary cell lies in some rectangle of
the geometry (hence the whole cell is covered by the union). -/
def Geom.coveredCell (g : Geom) (c : (ℚ × ℚ) × (ℚ × ℚ)) : Bool :=
  let mx := (c.1.1 + c.1.2) / 2
  let my := (c.2.1 + c.2.2) / 2
  g.any fun r => decide (r.x1 ≤ mx ∧ mx ≤ r.x2 ∧ r.y1 ≤ my ∧ my ≤ r.y2)

/-- shapely `.area`: the exact area of the union of the rectangles,
computed by coordinate compression (overlaps are not double counted). -/
def Geom.area (g : Geom) : ℚ :=
  ((Geom.cellList g).filter (Geom.coveredCell g)).foldl
    (fun acc c => acc + (c.1.2 - c.1.1) * (c.2.2 - c.2.1)) 0

/-- shapely `.centroid` of a union of rectangles: the area-weighted
average of the covered elementary cell centers.  Geometries with zero
area (never produced by the pipeline) get `(0, 0)`. -/
def Geom.centroid (g : Geom) : ℚ × ℚ :=
  let cov := (Geom.cellList g).filter (Geom.coveredCell g)
  let A := Geom.area g
  if A = 0 then (0, 0) else
    (cov.foldl (fun acc c => acc + (c.1.2 - c.1.1) * (c.2.2 - c.2.1) * ((c.1.1 + c.1.2) / 2)) 0 / A,
     cov.foldl (fun acc c => acc + (c.1.2 - c.1.1) * (c.2.2 - c.2.1) * ((c.2.1 + c.2.2) / 2)) 0 / A)

/-- Whether `g` is contained in `h` up to zero-area residue: shapely area-level
containment of one polygonal region in another. -/
def Geom.coveredByB (g h : Geom) : Bool :=
  decide (Geom.area (Geom.diff g h) = 0)

/-- shapely `polygon.contains(point)` / `point.within(polygon)`: the
point lies in the topological interior of the union.  For a finite union
of closed rectangles this holds iff each of the four quadrant directions
around the point is locally covered by some rectangle. -/
def Rect.quadCovers (r : Rect) (p : ℚ × ℚ) (sx sy : Bool) : Bool :=
  (if sx then decide (r.x1 ≤ p.1 ∧ p.1 < r.x2) else decide (r.x1 < p.1 ∧ p.1 ≤ r.x2)) &&
  (if sy then decide (r.y1 ≤ p.2 ∧ p.2 < r.y2) else decide (r.y1 < p.2 ∧ p.2 ≤ r.y2))

/-- Strict (interior) point containment, the semantics of shapely
`contains` / `within` for a point and a polygonal geometry. -/
def Geom.containsPt (g : Geom) (p : ℚ × ℚ) : Bool :=
  [true, false].all fun sx => [true, false].all fun sy =>
    g.any fun r => r.quadCovers p sx sy

/-- Membership of a point in the closed union (boundary included). -/
def Geom.closedContains (g : Geom) (p : ℚ × ℚ) : Bool :=
  g.any fun r => decide (r.x1 ≤ p.1 ∧ p.1 ≤ r.x2 ∧ r.y1 ≤ p.2 ∧ p.2 ≤ r.y2)

/-!
Embedding of `generate_regions.py` (`find_regions_for_grid_pair` and
`find_all_regions`): the region partitioner that decomposes the overlay
of the per-clinic grid squares into labeled regions.
-/

/-- Per-grid metadata carried alongside a grid polygon: the dictionary
`{'clinic_id': ..., 'weekly_hours': ...}` built by `create_clinic_grid`. -/
structure GridMeta where
  clinic_id : Nat
  weekly_hours : ℚ
deriving DecidableEq, Repr

/-- A region record produced by the partitioner: the dictionary
`{'geometry': ..., 'clinic_ids': ..., 'total_availability': ...}`. -/
structure RegionP where
  geometry : Geom
  clinic_ids : List Nat
  total_availability : ℚ
deriving DecidableEq, Repr

/-- Source `find_regions_for_grid_pair(grid1, grid2, metadata1, metadata2)`:
if the grids intersect with positive area, emit the intersection (both
ids, summed hours) and the nonempty one-sided differences; if they
intersect with zero area (touching), emit nothing; otherwise emit the
two grids unchanged. -/
def find_regions_for_grid_pair (grid1 grid2 : Geom) (metadata1 metadata2 : GridMeta) :
    List RegionP :=
  if Geom.intersectsB grid1 grid2 then
    let intersection := Geom.inter grid1 grid2
    if 0 < Geom.area intersection then
      let diff1 := Geom.diff grid1 grid2
      let diff2 := Geom.diff grid2 grid1
      [⟨intersection, [metadata1.clinic_id, metadata2.clinic_id],
        metadata1.weekly_hours + metadata2.weekly_hours⟩] ++
      (if diff1 = [] then [] else [⟨diff1, [metadata1.clinic_id], metadata1.weekly_hours⟩]) ++
      (if diff2 = [] then [] else [⟨diff2, [metadata2.clinic_id], metadata2.weekly_hours⟩])
    else []
  else
    [⟨grid1, [metadata1.clinic_id], metadata1.weekly_hours⟩,
     ⟨grid2, [metadata2.clinic_id], metadata2.weekly_hours⟩]

/-- One step of the inner loop of `find_all_regions`: split every region
accumulated so far against the next grid `grid2`.  Note the source
rebuilds the first argument's metadata as
`{'clinic_id': region['clinic_ids'][0], 'weekly_hours': region['total_availability']}`. -/
def splitRegionsByGrid (current : List RegionP) (grid2 : Geom) (metadata2 : GridMeta) :
    List RegionP :=
  current.flatMap fun region =>
    if Geom.intersectsB region.geometry grid2 then
      find_regions_for_grid_pair region.geometry grid2
        ⟨region.clinic_ids.headD 0, region.total_availability⟩ metadata2
    else
      [region]

/-- The inner loop of `find_all_regions` for one outer grid: start from
the grid itself and split against every later grid in order. -/
def regionsForGrid (grid1 : Geom) (metadata1 : GridMeta) (rest : List (Geom × GridMeta)) :
    List RegionP :=
  rest.foldl (fun cur p => splitRegionsByGrid cur p.1 p.2)
    [⟨grid1, [metadata1.clinic_id], metadata1.weekly_hours⟩]

/-- Append regions to the accumulator, skipping any whose geometry was
already emitted (the source deduplicates on the WKT string of the
geometry, i.e. on the canonical geometry value). -/
def addUniqueRegions : List RegionP → List Geom → List RegionP → (List Geom × List RegionP)
  | [], processed, acc => (processed, acc)
  | r :: rs, processed, acc =>
    if r.geometry ∈ processed then addUniqueRegions rs processed acc
    else addUniqueRegions rs (processed ++ [r.geometry]) (acc ++ [r])

/-- The outer loop of `find_all_regions`. -/
def find_all_regions_aux : List (Geom × GridMeta) → List Geom → List RegionP → List RegionP
  | [], _, acc => acc
  | (grid1, metadata1) :: rest, processed, acc =>
    let current := regionsForGrid grid1 metadata1 rest
    let next := addUniqueRegions current processed acc
    find_all_regions_aux rest next.1 next.2

/-- Source `find_all_regions(grids_with_metadata)`: for every grid, split it
against all later grids and collect the resulting regions, deduplicating
by geometry across outer iterations. -/
def find_all_regions (grids_with_metadata : List (Geom × GridMeta)) : List RegionP :=
  find_all_regions_aux grids_with_metadata [] []

/-- Two overlapping catchments used to exercise the partitioner:
catchment 1 is the square strip `[0,2] × [0,1]` with 10 weekly hours,
catchment 2 is `[1,3] × [0,1]` with 5 weekly hours. -/
def twoOverlappingGrids : List (Geom × GridMeta) :=
  [([⟨0, 2, 0, 1⟩], ⟨1, 10⟩), ([⟨1, 3, 0, 1⟩], ⟨2, 5⟩)]

/-- C1: for every set of input catchments the partitioner's regions are
pairwise disjoint (zero-area pairwise intersections) and their union
equals the union of the inputs.  This fails: on two overlapping
catchments, `find_all_regions` emits both the overlap piece and,
in a later outer iteration, the whole second catchment, and these two
output regions intersect with area 1, far above any sliver epsilon.
(The union half of the invariant also fails on merely touching
catchments, which `find_regions_for_grid_pair` silently drops.) -/
theorem find_all_regions_not_disjoint :
    ∃ r1 ∈ find_all_regions twoOverlappingGrids,
      ∃ r2 ∈ find_all_regions twoOverlappingGrids,
        r1 ≠ r2 ∧ 1 ≤ Geom.area (Geom.inter r1.geometry r2.geometry) := by
  with_unfolding_all decide

/-- Three catchments in a line, each overlapping the next two:
`[0,3] × [0,1]` (clinic 1, 1 hour), `[1,4] × [0,1]` (clinic 2, 2 hours),
`[2,5] × [0,1]` (clinic 4, 4 hours).  The strip `[2,3] × [0,1]` is
covered by all three. -/
def threeOverlappingGrids : List (Geom × GridMeta) :=
  [([⟨0, 3, 0, 1⟩], ⟨1, 1⟩), ([⟨1, 4, 0, 1⟩], ⟨2, 2⟩), ([⟨2, 5, 0, 1⟩], ⟨4, 4⟩)]

/-- C2: every emitted region's provider-id set should be exactly the set
of catchments geometrically covering it.  This fails: on the three-grid
input, `find_all_regions` emits the triple-overlap strip `[2,3] × [0,1]`
with `clinic_ids = [1, 4]`, although the catchment of clinic 2
(`[1,4] × [0,1]`) covers that strip entirely.  The id of clinic 2 is
lost because `find_all_regions` rebuilds the metadata of an intermediate
region as `{'clinic_id': region['clinic_ids'][0], ...}`, keeping only
the first id (its `total_availability` 7 still sums all three clinics,
so the capacity and the id set are also mutually inconsistent). -/
theorem find_all_regions_drops_covering_id :
    ∃ r ∈ find_all_regions threeOverlappingGrids,
      r.geometry = [⟨2, 3, 0, 1⟩] ∧
      r.clinic_ids = [1, 4] ∧
      r.total_availability = 7 ∧
      Geom.coveredByB r.geometry [⟨1, 4, 0, 1⟩] = true ∧
      (2 ∈ r.clinic_ids) = False := by
  with_unfolding_all decide

/-!
Embedding of `SmilewhiteHeatmap/process_customers.py`
(`calculate_region_capacity`): window filtering, gap detection and
per-region utilization metrics.  Timestamps are modeled as rational
day counts; `(end_date - start_date).days` is the floor of the
difference, as for Python `timedelta.days`.
-/

/-- A customer demand event record: `demand_key` is the de-duplication
id of the underlying entity (the source data carries it but
`calculate_region_capacity` never reads it), plus coordinates and
`assigned_date`. -/
structure Customer where
  demand_key : Nat
  latitude : ℚ
  longitude : ℚ
  assigned_date : ℚ
deriving DecidableEq, Repr

/-- A region record as read from `regions.geojson`. -/
structure RegionRec where
  region_id : Nat
  total_availability_hours : ℚ
  geometry : Geom
deriving DecidableEq, Repr

/-- A gap record: the fields copied for a customer outside all regions. -/
structure GapRec where
  latitude : ℚ
  longitude : ℚ
  assigned_date : ℚ
deriving DecidableEq, Repr

/-- The per-region metrics written back by `calculate_region_capacity`:
`capacity_ratio = none` models the float infinity used when the period
capacity is not positive. -/
structure Metric where
  region_id : Nat
  customer_count : Nat
  capacity_ratio : Option ℚ
  status : String
deriving DecidableEq, Repr

/-- The effective end date: if `(end_date - start_date).days > 7` the
source silently replaces `end_date` by `start_date + timedelta(days=6)`. -/
def clampEnd (start_date end_date : ℚ) : ℚ :=
  if 7 < ⌊end_date - start_date⌋ then start_date + 6 else end_date

/-- The date-range mask
`(assigned_date >= start_date) & (assigned_date <= end_date)`,
applied with the (possibly clamped) end date. -/
def inWindow (start_date effective_end : ℚ) (c : Customer) : Bool :=
  decide (start_date ≤ c.assigned_date ∧ c.assigned_date ≤ effective_end)

/-- Source `period_customers`: the events surviving the date-range filter.  No
de-duplication of any kind is applied. -/
def periodCustomers (start_date end_date : ℚ) (customers : List Customer) : List Customer :=
  customers.filter (inWindow start_date (clampEnd start_date end_date))

/-- The customers counted for one region:
`customers_gdf[customers_gdf.geometry.within(region.geometry)]`,
a strict interior point-in-polygon test. -/
def regionCustomers (geometry : Geom) (customers : List Customer) : List Customer :=
  customers.filter fun c => Geom.containsPt geometry (c.longitude, c.latitude)

/-- Source `days_in_period = min((end_date - start_date).days + 1, 7)` with the
effective end date. -/
def daysInPeriod (start_date end_date : ℚ) : ℤ :=
  min (⌊clampEnd start_date end_date - start_date⌋ + 1) 7

/-- Source `period_hours = (weekly_hours / 7) * days_in_period`. -/
def periodHours (start_date end_date : ℚ) (weekly_hours : ℚ) : ℚ :=
  (weekly_hours / 7) * (daysInPeriod start_date end_date : ℚ)

/-- The status cascade of `calculate_region_capacity`; `none` is the
infinite capacity ratio. -/
def statusOf (capacity_ratio : Option ℚ) : String :=
  match capacity_ratio with
  | none => "No Availability"
  | some r =>
    if r = 0 then "Empty"
    else if r ≤ 1/4 then "Low Utilization"
    else if r ≤ 1/2 then "Partially Full"
    else if r ≤ 3/4 then "Moderately Full"
    else if r ≤ 9/10 then "Near Capacity"
    else if r ≤ 1 then "At Capacity"
    else "Overcrowded"

/-- Source `calculate_region_capacity(regions_gdf, customers_gdf, start_date,
end_date)`: clamp the window, filter events to it, report events
contained in no region as gaps, and compute per-region counts, capacity
ratios and statuses.  Returns `(metrics, gaps)`. -/
def calculate_region_capacity (regions : List RegionRec) (customers : List Customer)
    (start_date end_date : ℚ) : List Metric × List GapRec :=
  let pc := periodCustomers start_date end_date customers
  let gaps := (pc.filter fun c =>
      ! regions.any fun region => Geom.containsPt region.geometry (c.longitude, c.latitude)).map
    fun c => ⟨c.latitude, c.longitude, c.assigned_date⟩
  let metrics := regions.map fun region =>
    let customer_count := (regionCustomers region.geometry pc).length
    let period_hours := periodHours start_date end_date region.total_availability_hours
    let capacity_ratio : Option ℚ :=
      if 0 < period_hours then some ((customer_count : ℚ) / period_hours) else none
    { region_id := region.region_id
      customer_count := customer_count
      capacity_ratio := capacity_ratio
      status := statusOf capacity_ratio }
  (metrics, gaps)

/-- The de-duplication described by the specification: keep only the
first event of each `demand_key` (modelled from the spec; nothing in the
source implements it). -/
def dedupByKeyAux (seen : List Nat) : List Customer → List Customer
  | [] => []
  | c :: rest =>
    if c.demand_key ∈ seen then dedupByKeyAux seen rest
    else c :: dedupByKeyAux (c.demand_key :: seen) rest

/-- De-duplicate a list of events by `demand_key`, keeping the first
occurrence of each key. -/
def dedupByKey (customers : List Customer) : List Customer :=
  dedupByKeyAux [] customers

/-- Two demand events for the same entity (`demand_key = 5`), both
inside the coverage window and inside the only region. -/
def dupKeyEvents : List Customer :=
  [⟨5, 1, 1, 1⟩, ⟨5, 2, 2, 2⟩]

/-- One region with 7 weekly hours covering `[0,4] × [0,4]`. -/
def dupKeyRegion : List RegionRec :=
  [⟨1, 7, [⟨0, 4, 0, 4⟩]⟩]

/-- C5: the claim states that attribution de-duplicates the
window-filtered events by `demand_key`, keeping only the first
occurrence.  This fails: `calculate_region_capacity` applies only the
date mask, so two events with the same `demand_key` both survive and the
entity is counted twice in its region. -/
theorem attribution_counts_duplicate_keys :
    periodCustomers 0 6 dupKeyEvents ≠ dedupByKey (periodCustomers 0 6 dupKeyEvents) ∧
    (dedupByKey (periodCustomers 0 6 dupKeyEvents)).length = 1 ∧
    ((calculate_region_capacity dupKeyRegion dupKeyEvents 0 6).1.map
      Metric.customer_count) = [2] := by
  with_unfolding_all decide

/-- C5 (amended): the surviving events are exactly the events of the
window `[start_date, clampEnd start_date end_date]` (both endpoints
inclusive), with multiplicity: no de-duplication is applied, so every
in-window occurrence is kept, including repeated `demand_key`s. -/
theorem periodCustomers_filter_no_dedup (start_date end_date : ℚ)
    (customers : List Customer) (c : Customer) :
    (periodCustomers start_date end_date customers).count c =
      if start_date ≤ c.assigned_date ∧ c.assigned_date ≤ clampEnd start_date end_date
      then customers.count c else 0 := by
  unfold periodCustomers
  by_cases h : start_date ≤ c.assigned_date ∧ c.assigned_date ≤ clampEnd start_date end_date
  · rw [if_pos h]
    exact List.count_filter (by simpa [inWindow] using h)
  · rw [if_neg h]
    refine List.count_eq_zero.mpr fun hmem => h ?_
    have := (List.mem_filter.mp hmem).2
    simpa [inWindow] using this

/-- Region list used for the window-clamping witness. -/
def clampRegion : List RegionRec :=
  [⟨1, 7, [⟨0, 4, 0, 4⟩]⟩]

/-- C6: the claim states a window longer than 7 days is rejected with
`InvalidWindowError`.  No such error exists anywhere in the source: the
call simply proceeds.  (Amended) the window is silently clamped: when
`(end_date - start_date).days > 7` the whole computation behaves exactly
as if it had been called with `end_date = start_date + 6` days. -/
theorem calculate_region_capacity_clamps (regions : List RegionRec)
    (customers : List Customer) (start_date end_date : ℚ)
    (h : 7 < ⌊end_date - start_date⌋) :
    calculate_region_capacity regions customers start_date end_date =
      calculate_region_capacity regions customers start_date (start_date + 6) := by
  have he : clampEnd start_date end_date = clampEnd start_date (start_date + 6) := by
    unfold clampEnd
    rw [if_pos h, ite_self]
  simp only [calculate_region_capacity, periodCustomers, daysInPeriod, periodHours, he]

/-- Witness for the clamping theorem: a 10-day window is processed, not
rejected, and gives the same output as the clamped 6-day window. -/
theorem calculate_region_capacity_clamps_witness :
    7 < ⌊(10:ℚ) - 0⌋ ∧
      calculate_region_capacity clampRegion [] 0 10 =
        calculate_region_capacity clampRegion [] 0 (0 + 6) :=
  ⟨by with_unfolding_all decide,
   calculate_region_capacity_clamps clampRegion [] 0 10 (by with_unfolding_all decide)⟩

/-- A region with zero weekly hours. -/
def zeroHoursRegion : List RegionRec :=
  [⟨1, 0, [⟨0, 4, 0, 4⟩]⟩]

/-- C8: the claim states that attributing zero demand events yields
status "empty" for every region.  This fails for a region with zero
weekly hours: its period capacity is not positive, the capacity ratio is
infinite, and the status is "No Availability" (the code also spells the
zero-ratio status "Empty", capitalized). -/
theorem empty_attribution_not_all_empty :
    ∃ m ∈ (calculate_region_capacity zeroHoursRegion [] 0 6).1,
      m.customer_count = 0 ∧ m.status = "No Availability" ∧
      m.status ≠ "empty" ∧ m.status ≠ "Empty" := by
  with_unfolding_all decide

/-- C8 (amended): attributing an empty event list yields, for every
region, a count of 0 and status "Empty" when the region's period
capacity is positive, and "No Availability" otherwise. -/
theorem calculate_region_capacity_empty_events (regions : List RegionRec)
    (start_date end_date : ℚ) :
    (calculate_region_capacity regions [] start_date end_date).1 =
      regions.map fun region =>
        if 0 < periodHours start_date end_date region.total_availability_hours
        then ⟨region.region_id, 0, some 0, "Empty"⟩
        else ⟨region.region_id, 0, none, "No Availability"⟩ := by
  unfold calculate_region_capacity
  simp only [periodCustomers, regionCustomers, List.filter_nil, List.length_nil]
  apply List.map_congr_left
  intro region _
  by_cases h : 0 < periodHours start_date end_date region.total_availability_hours
  · simp [h, statusOf]
  · simp [h, statusOf]

/-- C10: both the gap test (`region.contains(customer_point)`) and the
counting test (`geometry.within(region.geometry)`) use strict interior
containment.  An in-window event whose location lies on the boundary of
every region geometry that reaches it — so in no region's interior, even
if it lies in the closed union of the coverage geometries — is counted
in no region and is reported as a gap. -/
theorem boundary_event_is_gap (regions : List RegionRec) (customers : List Customer)
    (start_date end_date : ℚ) (c : Customer)
    (hmem : c ∈ customers)
    (hwin : inWindow start_date (clampEnd start_date end_date) c = true)
    (_hcov : ∃ region ∈ regions,
      Geom.closedContains region.geometry (c.longitude, c.latitude) = true)
    (hbd : ∀ region ∈ regions,
      Geom.containsPt region.geometry (c.longitude, c.latitude) = false) :
    (⟨c.latitude, c.longitude, c.assigned_date⟩ : GapRec) ∈
        (calculate_region_capacity regions customers start_date end_date).2 ∧
      ∀ region ∈ regions,
        c ∉ regionCustomers region.geometry (periodCustomers start_date end_date customers) := by
  have hpc : c ∈ periodCustomers start_date end_date customers :=
    List.mem_filter.mpr ⟨hmem, hwin⟩
  constructor
  · refine List.mem_map.mpr ⟨c, List.mem_filter.mpr ⟨hpc, ?_⟩, rfl⟩
    simp only [Bool.not_eq_eq_eq_not, Bool.not_true, List.any_eq_false]
    intro region hregion
    simpa using hbd region hregion
  · intro region hregion hin
    have := (List.mem_filter.mp hin).2
    rw [hbd region hregion] at this
    exact Bool.false_ne_true this

/-- The single region used by the boundary witness: the unit square. -/
def boundaryRegions : List RegionRec :=
  [⟨1, 7, [⟨0, 1, 0, 1⟩]⟩]

/-- An event on the left edge of the unit square: longitude 0,
latitude 1/2. -/
def boundaryEvent : Customer :=
  ⟨1, 1/2, 0, 3⟩

/-- Witness: the boundary event lies in the closed unit square but on
its boundary; it is reported as a gap and counted in no region. -/
theorem boundary_event_is_gap_witness :
    (boundaryEvent ∈ [boundaryEvent]) ∧
      (inWindow 0 (clampEnd 0 6) boundaryEvent = true) ∧
      (∃ region ∈ boundaryRegions,
        Geom.closedContains region.geometry
          (boundaryEvent.longitude, boundaryEvent.latitude) = true) ∧
      (∀ region ∈ boundaryRegions,
        Geom.containsPt region.geometry
          (boundaryEvent.longitude, boundaryEvent.latitude) = false) ∧
      ((⟨boundaryEvent.latitude, boundaryEvent.longitude, boundaryEvent.assigned_date⟩ : GapRec) ∈
          (calculate_region_capacity boundaryRegions [boundaryEvent] 0 6).2 ∧
        ∀ region ∈ boundaryRegions,
          boundaryEvent ∉ regionCustomers region.geometry
            (periodCustomers 0 6 [boundaryEvent])) :=
  ⟨by with_unfolding_all decide, by with_unfolding_all decide,
   by with_unfolding_all decide, by with_unfolding_all decide,
   boundary_event_is_gap boundaryRegions [boundaryEvent] 0 6 boundaryEvent
     (by with_unfolding_all decide) (by with_unfolding_all decide)
     (by with_unfolding_all decide) (by with_unfolding_all decide)⟩

/-!
Embedding of the kilometer-to-degree conversions.  `generate_grids.py`
and `SmilewhiteHeatmap/generate_grids.py` define `km_to_deg(km)` with a
hardcoded latitude of 54 degrees; `DynamicArea/generate_grids.py`
defines `km_to_deg(km, lat)` using the latitude it is given (the grid
center's latitude at every call site).
-/

/-- Conversion `np.radians`: degrees to radians. -/
noncomputable def radiansOf (degrees : ℝ) : ℝ :=
  degrees * Real.pi / 180

/-- Source `km_to_deg(km)` of `generate_grids.py` and
`SmilewhiteHeatmap/generate_grids.py`: latitude fixed at 54 degrees. -/
noncomputable def km_to_deg (km : ℝ) : ℝ × ℝ :=
  (km / 111.0, km / (111.0 * Real.cos (radiansOf 54)))

/-- Source `km_to_deg(km, lat)` of `DynamicArea/generate_grids.py`: the
latitude-aware variant. -/
noncomputable def km_to_deg_dynamic (km lat : ℝ) : ℝ × ℝ :=
  (km / 111.0, km / (111.0 * Real.cos (radiansOf lat)))

/-- The conversion the specification prescribes:
`dLat = km / 111.0`, `dLon = km / (111.0 * cos(radians(latitude)))`
with `latitude` the catchment center's latitude. -/
noncomputable def kmToDegreesSpec (km latitude : ℝ) : ℝ × ℝ :=
  (km / 111.0, km / (111.0 * Real.cos (radiansOf latitude)))

/-- C4: the claim states that for every latitude the conversion used to
build a catchment returns `dLon = km / (111 * cos(radians(latitude)))`
with the catchment center's latitude.  This fails for the `km_to_deg`
shared by `generate_grids.py` and `SmilewhiteHeatmap/generate_grids.py`:
at latitude 0 the prescribed conversion gives `dLon = 1` for 111 km,
while the code, which hardcodes latitude 54, gives `1 / cos(54°) > 1`. -/
theorem km_to_deg_ignores_latitude :
    km_to_deg 111 ≠ kmToDegreesSpec 111 0 := by
  intro h
  have hlon := congrArg Prod.snd h
  simp only [km_to_deg, kmToDegreesSpec] at hlon
  have hx_pos : 0 < radiansOf 54 := by
    unfold radiansOf
    positivity
  have hx_le : radiansOf 54 ≤ Real.pi := by
    unfold radiansOf
    nlinarith [Real.pi_pos]
  have hcos_lt : Real.cos (radiansOf 54) < 1 := by
    have := Real.cos_lt_cos_of_nonneg_of_le_pi (le_refl 0) hx_le hx_pos
    simpa using this
  have hcos_pos : 0 < Real.cos (radiansOf 54) := by
    apply Real.cos_pos_of_mem_Ioo
    constructor
    · nlinarith [Real.pi_pos]
    · unfold radiansOf
      nlinarith [Real.pi_pos]
  have hne : (111 : ℝ) / (111.0 * Real.cos (radiansOf 54)) ≠
      111 / (111.0 * Real.cos (radiansOf 0)) := by
    have h0 : radiansOf 0 = 0 := by
      unfold radiansOf
      ring
    rw [h0, Real.cos_zero]
    have hleft : (111 : ℝ) / (111.0 * Real.cos (radiansOf 54)) =
        1 / Real.cos (radiansOf 54) := by
      rw [← div_div]
      norm_num
    have hright : (111 : ℝ) / (111.0 * 1) = 1 := by norm_num
    rw [hleft, hright]
    have := one_lt_one_div hcos_pos hcos_lt
    exact ne_of_gt this
  exact hne hlon

/-- C4 (amended): every variant computes `dLat = km / 111`; the
`DynamicArea` variant computes `dLon` with the latitude it is passed
(the grid center's latitude), exactly as the specification prescribes,
while the other two variants compute `dLon` with the fixed latitude 54
degrees instead of the catchment center's latitude. -/
theorem km_to_deg_variants (km lat : ℝ) :
    km_to_deg_dynamic km lat = kmToDegreesSpec km lat ∧
      km_to_deg km = kmToDegreesSpec km 54 :=
  ⟨rfl, rfl⟩

/-!
Embedding of `merge_nearby_squares` (identical in
`DynamicArea/generate_grids.py` and
`SmilewhiteHeatmap/generate_grids.py`, up to the `area_type` field kept
by the former): cluster the grids with
`DBSCAN(eps=distance_km/111.0, min_samples=1)` on the grid centroids and
merge each cluster.

With `min_samples=1` every sample is a core sample, so the DBSCAN
clusters are exactly the connected components of the graph joining two
centroids at Euclidean distance at most `eps` (in degree coordinates);
labels are assigned in order of first occurrence, `np.unique` sorts
them, and `np.where` lists each cluster's members in index order.  We
model this exactly: a cluster is represented by its smallest member
index, clusters are emitted in order of that representative, and
members are listed in increasing index order.  Connectivity is computed
by iterating a neighborhood-expansion step `n` times, which saturates.
-/

/-- A grid dictionary as built by `create_grids_batch` /
`merge_nearby_squares`.  The source's input dictionaries carry no
`all_clinic_ids` key; the pipeline treats a missing key as
`[clinic_id]` (`grid.get('all_clinic_ids', [grid['clinic_id']])`), which
is the `FreshIds` hypothesis below. -/
structure Grid where
  clinic_id : Nat
  all_clinic_ids : List Nat
  weekly_hours : ℚ
  geometry : Geom
deriving DecidableEq, Repr, Inhabited

/-- Squared Euclidean distance between two points in degree space. -/
def distSq (p q : ℚ × ℚ) : ℚ :=
  (p.1 - q.1) ^ 2 + (p.2 - q.2) ^ 2

/-- One round of neighborhood expansion of an index set `s` inside
`{0, ..., n-1}` along the Boolean adjacency `adjb`. -/
def stepSet (adjb : Nat → Nat → Bool) (n : Nat) (s : List Nat) : List Nat :=
  (List.range n).filter fun j => decide (j ∈ s) || s.any fun k => adjb k j

/-- Iterated neighborhood expansion. -/
def iterStep (adjb : Nat → Nat → Bool) (n : Nat) : Nat → List Nat → List Nat
  | 0, s => s
  | m + 1, s => stepSet adjb n (iterStep adjb n m s)

/-- All indices reachable from `i`: `n` rounds of expansion starting
from `{i}` (enough to saturate among `n` vertices). -/
def compSet (adjb : Nat → Nat → Bool) (n : Nat) (i : Nat) : List Nat :=
  iterStep adjb n n [i]

/-- Whether `j` lies in the connected component of `i`. -/
def linkB (adjb : Nat → Nat → Bool) (n : Nat) (i j : Nat) : Bool :=
  decide (j ∈ compSet adjb n i)

/-- The DBSCAN adjacency used by `merge_nearby_squares`: centroids of
the grid geometries within Euclidean distance `eps = distance_km / 111`
of each other (inclusive, squared comparison). -/
def gridAdj (grids : List Grid) (distance_km : ℚ) : Nat → Nat → Bool :=
  fun i j =>
    decide (distSq ((grids.map fun g => Geom.centroid g.geometry).getD i (0, 0))
        ((grids.map fun g => Geom.centroid g.geometry).getD j (0, 0)) ≤
      (distance_km / 111) ^ 2)

/-- The member indices of the cluster of `i`, in increasing order
(`np.where(labels == cluster_id)`). -/
def clusterMembers (grids : List Grid) (distance_km : ℚ) (i : Nat) : List Nat :=
  (List.range grids.length).filter fun j =>
    linkB (gridAdj grids distance_km) grids.length i j

/-- The cluster representatives: indices with no smaller index in their
component.  Their increasing order is the DBSCAN label order. -/
def clusterReps (grids : List Grid) (distance_km : ℚ) : List Nat :=
  (List.range grids.length).filter fun i =>
    (List.range i).all fun j => ! linkB (gridAdj grids distance_km) grids.length j i

/-- Build the merged grid of one cluster: first member's id as primary,
all members' primary ids, summed hours, `unary_union` of the member
geometries. -/
def mergeCluster (grids : List Grid) (members : List Nat) : Grid :=
  let cluster := members.map fun j => grids.getD j default
  { clinic_id := (cluster.map Grid.clinic_id).headD 0
    all_clinic_ids := cluster.map Grid.clinic_id
    weekly_hours := (cluster.map Grid.weekly_hours).sum
    geometry := cluster.flatMap Grid.geometry }

/-- Source `merge_nearby_squares(grids, distance_km)`: identity for
non-positive thresholds, otherwise one merged grid per DBSCAN cluster. -/
def merge_nearby_squares (grids : List Grid) (distance_km : ℚ) : List Grid :=
  if distance_km ≤ 0 then grids
  else (clusterReps grids distance_km).map fun i =>
    mergeCluster grids (clusterMembers grids distance_km i)

/-- Three half-width-1/4 square catchments centered at `(0, 0)`,
`(9/10, 0)` and `(9/20, 9/10)`, with ids 1, 2, 3 and hours 1, 2, 4.
With threshold 111 km (one degree), the first two centroids are within
distance 1 of each other while the third is at squared distance
405/400 > 1 from both, so the first merge pass yields two grids.  The
merged pair's union centroid moves to `(9/20, 0)`, which is within
distance 1 of the third centroid, so a second pass merges further. -/
def mergeExampleGrids : List Grid :=
  [⟨1, [1], 1, [⟨-1/4, 1/4, -1/4, 1/4⟩]⟩,
   ⟨2, [2], 2, [⟨13/20, 23/20, -1/4, 1/4⟩]⟩,
   ⟨3, [3], 4, [⟨1/5, 7/10, 13/20, 23/20⟩]⟩]

/-- C7: the claim states `mergeNearby` is idempotent for every input and
threshold.  This fails: merging moves cluster centroids, so re-running
with the same threshold can merge further, here collapsing the two
output grids of the first pass into one. -/
theorem merge_nearby_squares_not_idempotent :
    merge_nearby_squares (merge_nearby_squares mergeExampleGrids 111) 111 ≠
        merge_nearby_squares mergeExampleGrids 111 ∧
      (merge_nearby_squares mergeExampleGrids 111).length = 2 ∧
      (merge_nearby_squares (merge_nearby_squares mergeExampleGrids 111) 111).length = 1 := by
  with_unfolding_all decide

/-- The number of merged grids never exceeds the number of inputs. -/
theorem merge_nearby_squares_length_le (grids : List Grid) (distance_km : ℚ) :
    (merge_nearby_squares grids distance_km).length ≤ grids.length := by
  unfold merge_nearby_squares
  split
  · exact le_refl _
  · rw [List.length_map]
    calc (clusterReps grids distance_km).length
        ≤ (List.range grids.length).length := List.length_filter_le _ _
      _ = grids.length := List.length_range _

/-- C7 (amended): re-running `mergeNearby` on its own output is not the
identity in general, but it never increases the number of catchments:
a second pass can only merge further. -/
theorem merge_nearby_squares_rerun_length_le (grids : List Grid) (distance_km : ℚ) :
    (merge_nearby_squares (merge_nearby_squares grids distance_km) distance_km).length ≤
      (merge_nearby_squares grids distance_km).length :=
  merge_nearby_squares_length_le (merge_nearby_squares grids distance_km) distance_km

/-- The one-step adjacency relation restricted to indices below `n`. -/
def adjRel (adjb : Nat → Nat → Bool) (n : Nat) (a b : Nat) : Prop :=
  a < n ∧ b < n ∧ adjb a b = true

theorem mem_stepSet {adjb : Nat → Nat → Bool} {n : Nat} {s : List Nat} {j : Nat} :
    j ∈ stepSet adjb n s ↔ j < n ∧ (j ∈ s ∨ ∃ k ∈ s, adjb k j = true) := by
  simp [stepSet, List.mem_filter, List.mem_range, List.any_eq_true]

theorem iter_bound {adjb : Nat → Nat → Bool} {n : Nat} :
    ∀ {m : Nat} {s : List Nat}, (∀ x ∈ s, x < n) →
      ∀ x ∈ iterStep adjb n m s, x < n := by
  intro m
  induction m with
  | zero => intro s hs; exact hs
  | succ m ih =>
    intro s hs x hx
    exact (mem_stepSet.mp hx).1

theorem iter_sound {adjb : Nat → Nat → Bool} {n i : Nat} :
    ∀ {m : Nat} {s : List Nat},
      (∀ x ∈ s, Relation.ReflTransGen (adjRel adjb n) i x) →
      (∀ x ∈ s, x < n) →
      ∀ j ∈ iterStep adjb n m s, Relation.ReflTransGen (adjRel adjb n) i j := by
  intro m
  induction m with
  | zero => intro s hs _ j hj; exact hs j hj
  | succ m ih =>
    intro s hs hb j hj
    rcases mem_stepSet.mp hj with ⟨hjn, hj2 | ⟨k, hk, hadj⟩⟩
    · exact ih hs hb j hj2
    · exact (ih hs hb k hk).tail ⟨iter_bound hb k hk, hjn, hadj⟩

theorem subset_iter {adjb : Nat → Nat → Bool} {n : Nat} :
    ∀ {m : Nat} {s : List Nat}, (∀ x ∈ s, x < n) → ∀ x ∈ s, x ∈ iterStep adjb n m s := by
  intro m
  induction m with
  | zero => intro s _ x hx; exact hx
  | succ m ih =>
    intro s hs x hx
    exact mem_stepSet.mpr ⟨hs x hx, Or.inl (ih hs x hx)⟩

theorem stepSet_congr {adjb : Nat → Nat → Bool} {n : Nat} {s t : List Nat}
    (h : ∀ x, x ∈ s ↔ x ∈ t) : stepSet adjb n s = stepSet adjb n t := by
  unfold stepSet
  apply List.filter_congr
  intro j _
  have h1 : decide (j ∈ s) = decide (j ∈ t) := decide_eq_decide.mpr (h j)
  have h2 : (s.any fun k => adjb k j) = (t.any fun k => adjb k j) := by
    apply Bool.eq_iff_iff.mpr
    simp only [List.any_eq_true]
    constructor
    · rintro ⟨k, hk, ha⟩
      exact ⟨k, (h k).mp hk, ha⟩
    · rintro ⟨k, hk, ha⟩
      exact ⟨k, (h k).mpr hk, ha⟩
  rw [h1, h2]

theorem saturation {adjb : Nat → Nat → Bool} {n i : Nat} (hi : i < n) :
    stepSet adjb n (compSet adjb n i) = compSet adjb n i := by
  have hbase : ∀ x ∈ [i], x < n := by
    intro x hx
    rcases List.mem_singleton.mp hx with rfl
    exact hi
  have hbound : ∀ m, ∀ x ∈ iterStep adjb n m [i], x < n := fun m => iter_bound hbase
  have hmono : ∀ m, ∀ x ∈ iterStep adjb n m [i], x ∈ iterStep adjb n (m + 1) [i] := by
    intro m x hx
    exact mem_stepSet.mpr ⟨hbound m x hx, Or.inl hx⟩
  -- some round below n reaches a fixed point of the membership
  have hfixex : ∃ m, m < n ∧
      (∀ x, x ∈ iterStep adjb n (m + 1) [i] ↔ x ∈ iterStep adjb n m [i]) := by
    by_contra hfail
    push_neg at hfail
    have hgrow : ∀ m, m < n →
        (iterStep adjb n m [i]).toFinset.card < (iterStep adjb n (m + 1) [i]).toFinset.card := by
      intro m hm
      rcases hfail m hm with ⟨x, hx⟩
      have hsub : (iterStep adjb n m [i]).toFinset ⊆ (iterStep adjb n (m + 1) [i]).toFinset := by
        intro y hy
        exact List.mem_toFinset.mpr (hmono m y (List.mem_toFinset.mp hy))
      have hxm : x ∈ iterStep adjb n (m + 1) [i] ∧ x ∉ iterStep adjb n m [i] := by
        rcases hx with ⟨h1, h2⟩ | ⟨h1, h2⟩
        · exact ⟨h1, h2⟩
        · exact absurd (hmono m x h2) h1
      have hne : ∃ y ∈ (iterStep adjb n (m + 1) [i]).toFinset,
          y ∉ (iterStep adjb n m [i]).toFinset :=
        ⟨x, List.mem_toFinset.mpr hxm.1, fun hc => hxm.2 (List.mem_toFinset.mp hc)⟩
      exact Finset.card_lt_card ((Finset.ssubset_iff_of_subset hsub).mpr hne)
    have hge : ∀ m, m ≤ n → m + 1 ≤ (iterStep adjb n m [i]).toFinset.card := by
      intro m
      induction m with
      | zero =>
        intro _
        simp [iterStep]
      | succ m ih =>
        intro hm
        have h1 := ih (Nat.le_of_succ_le hm)
        have h2 := hgrow m (Nat.lt_of_succ_le hm)
        omega
    have hle : (iterStep adjb n n [i]).toFinset.card ≤ n := by
      have : (iterStep adjb n n [i]).toFinset ⊆ Finset.range n := by
        intro y hy
        exact Finset.mem_range.mpr (hbound n y (List.mem_toFinset.mp hy))
      calc (iterStep adjb n n [i]).toFinset.card ≤ (Finset.range n).card :=
            Finset.card_le_card this
        _ = n := Finset.card_range n
    have := hge n (le_refl n)
    omega
  rcases hfixex with ⟨m0, hm0, hfix⟩
  have hconst : ∀ k, iterStep adjb n (m0 + 1 + k) [i] = iterStep adjb n (m0 + 1) [i] := by
    intro k
    induction k with
    | zero => rfl
    | succ k ih =>
      have : iterStep adjb n (m0 + 1 + (k + 1)) [i] =
          stepSet adjb n (iterStep adjb n (m0 + 1 + k) [i]) := rfl
      rw [this, ih]
      show stepSet adjb n (iterStep adjb n (m0 + 1) [i]) = iterStep adjb n (m0 + 1) [i]
      calc stepSet adjb n (iterStep adjb n (m0 + 1) [i])
          = stepSet adjb n (iterStep adjb n m0 [i]) := stepSet_congr hfix
        _ = iterStep adjb n (m0 + 1) [i] := rfl
  have h1 : iterStep adjb n n [i] = iterStep adjb n (m0 + 1) [i] := by
    have hk := hconst (n - (m0 + 1))
    rwa [show m0 + 1 + (n - (m0 + 1)) = n by omega] at hk
  show stepSet adjb n (iterStep adjb n n [i]) = iterStep adjb n n [i]
  rw [h1]
  calc stepSet adjb n (iterStep adjb n (m0 + 1) [i])
      = stepSet adjb n (iterStep adjb n m0 [i]) := stepSet_congr hfix
    _ = iterStep adjb n (m0 + 1) [i] := rfl

theorem closed_of_stepFix {adjb : Nat → Nat → Bool} {n : Nat} {s : List Nat}
    (hfix : stepSet adjb n s = s) {a b : Nat} (ha : a ∈ s)
    (h : Relation.ReflTransGen (adjRel adjb n) a b) : b ∈ s := by
  induction h with
  | refl => exact ha
  | tail _ hbc ih =>
    rw [← hfix]
    exact mem_stepSet.mpr ⟨hbc.2.1, Or.inr ⟨_, ih, hbc.2.2⟩⟩

theorem linkB_iff {adjb : Nat → Nat → Bool} {n i j : Nat} (hi : i < n) :
    linkB adjb n i j = true ↔ Relation.ReflTransGen (adjRel adjb n) i j := by
  have hbase : ∀ x ∈ [i], x < n := by
    intro x hx
    rcases List.mem_singleton.mp hx with rfl
    exact hi
  unfold linkB compSet
  rw [decide_eq_true_eq]
  constructor
  · intro hj
    refine iter_sound ?_ hbase j hj
    intro x hx
    rcases List.mem_singleton.mp hx with rfl
    exact Relation.ReflTransGen.refl
  · intro h
    exact closed_of_stepFix (saturation hi) (subset_iter hbase i (List.mem_singleton.mpr rfl)) h

theorem centroid_nil : Geom.centroid [] = (0, 0) := by
  with_unfolding_all rfl

theorem getD_map_centroid (grids : List Grid) (i : Nat) :
    (grids.map fun g => Geom.centroid g.geometry).getD i (0, 0) =
      Geom.centroid ((grids.getD i default).geometry) := by
  induction grids generalizing i with
  | nil =>
    show (0, 0) = Geom.centroid (Grid.geometry default)
    rw [show Grid.geometry default = [] from rfl, centroid_nil]
  | cons a l ih =>
    cases i with
    | zero => rfl
    | succ i =>
      show (l.map fun g => Geom.centroid g.geometry).getD i (0, 0) =
        Geom.centroid ((l.getD i default).geometry)
      exact ih i

/-- The adjacency relation of the specification: both indices are valid
and the two catchment centroids lie within the merge threshold of each
other (squared Euclidean comparison in degree coordinates, with the
source's `eps = distance_km / 111` conversion of the threshold). -/
def specAdj (grids : List Grid) (distance_km : ℚ) (i j : Nat) : Prop :=
  i < grids.length ∧ j < grids.length ∧
    distSq (Geom.centroid ((grids.getD i default).geometry))
        (Geom.centroid ((grids.getD j default).geometry)) ≤ (distance_km / 111) ^ 2

/-- Single-link clustering: `i` and `j` belong to the same cluster iff
they are joined by a chain of adjacent catchments (the reflexive
transitive closure of the proximity relation, i.e. connected components
of the proximity graph). -/
def linked (grids : List Grid) (distance_km : ℚ) : Nat → Nat → Prop :=
  Relation.ReflTransGen (specAdj grids distance_km)

theorem adjRel_iff_specAdj (grids : List Grid) (distance_km : ℚ) (i j : Nat) :
    adjRel (gridAdj grids distance_km) grids.length i j ↔ specAdj grids distance_km i j := by
  unfold adjRel gridAdj specAdj
  rw [decide_eq_true_eq, getD_map_centroid, getD_map_centroid]

theorem linked_iff_linkB (grids : List Grid) (distance_km : ℚ) {i j : Nat}
    (hi : i < grids.length) :
    linked grids distance_km i j ↔
      linkB (gridAdj grids distance_km) grids.length i j = true := by
  rw [linkB_iff hi]
  constructor
  · exact Relation.ReflTransGen.mono fun a b => (adjRel_iff_specAdj grids distance_km a b).mpr
  · exact Relation.ReflTransGen.mono fun a b => (adjRel_iff_specAdj grids distance_km a b).mp

theorem distSq_comm (p q : ℚ × ℚ) : distSq p q = distSq q p := by
  unfold distSq
  ring

theorem specAdj_symm (grids : List Grid) (distance_km : ℚ) :
    Symmetric (specAdj grids distance_km) := by
  intro a b h
  exact ⟨h.2.1, h.1, by rw [distSq_comm]; exact h.2.2⟩

theorem linked_symm (grids : List Grid) (distance_km : ℚ) :
    Symmetric (linked grids distance_km) :=
  Relation.ReflTransGen.symmetric (specAdj_symm grids distance_km)

theorem linked_bounds {grids : List Grid} {distance_km : ℚ} {i j : Nat}
    (h : linked grids distance_km i j) :
    i = j ∨ (i < grids.length ∧ j < grids.length) := by
  induction h with
  | refl => exact Or.inl rfl
  | tail _ hbc ih =>
    right
    refine ⟨?_, hbc.2.1⟩
    rcases ih with rfl | ⟨hi, _⟩
    · exact hbc.1
    · exact hi

/-- A cluster representative: a valid index linked to no smaller index
(the first point of its DBSCAN cluster in scan order). -/
def IsRep (grids : List Grid) (distance_km : ℚ) (i : Nat) : Prop :=
  i < grids.length ∧ ∀ j, j < i → ¬ linked grids distance_km j i

theorem mem_clusterReps_iff (grids : List Grid) (distance_km : ℚ) {i : Nat} :
    i ∈ clusterReps grids distance_km ↔ IsRep grids distance_km i := by
  unfold clusterReps IsRep
  simp only [List.mem_filter, List.mem_range, List.all_eq_true, Bool.not_eq_true]
  constructor
  · rintro ⟨hi, hall⟩
    refine ⟨hi, fun j hj hl => ?_⟩
    have hfalse := hall j hj
    rw [(linked_iff_linkB grids distance_km (hj.trans hi)).mp hl] at hfalse
    exact absurd hfalse (by simp)
  · rintro ⟨hi, hall⟩
    refine ⟨hi, fun j hj => ?_⟩
    have hnl : ¬ linkB (gridAdj grids distance_km) grids.length j i = true := by
      rw [← linked_iff_linkB grids distance_km (hj.trans hi)]
      exact hall j hj
    simpa using hnl

theorem exists_rep (grids : List Grid) (distance_km : ℚ) {j : Nat}
    (hj : j < grids.length) :
    ∃ i, IsRep grids distance_km i ∧ linked grids distance_km i j := by
  classical
  have hP : ∃ i, linked grids distance_km i j ∧ i < grids.length :=
    ⟨j, Relation.ReflTransGen.refl, hj⟩
  refine ⟨Nat.find hP, ⟨(Nat.find_spec hP).2, fun k hk hlink => ?_⟩, (Nat.find_spec hP).1⟩
  have hkj : linked grids distance_km k j := hlink.trans (Nat.find_spec hP).1
  have hkn : k < grids.length := by
    rcases linked_bounds hlink with rfl | ⟨hkn, _⟩
    · exact absurd hk (lt_irrefl _)
    · exact hkn
  exact Nat.find_min hP hk ⟨hkj, hkn⟩

theorem rep_unique (grids : List Grid) (distance_km : ℚ) {i1 i2 j : Nat}
    (h1 : IsRep grids distance_km i1) (h2 : IsRep grids distance_km i2)
    (l1 : linked grids distance_km i1 j) (l2 : linked grids distance_km i2 j) :
    i1 = i2 := by
  have l12 : linked grids distance_km i1 i2 :=
    l1.trans (linked_symm grids distance_km l2)
  rcases Nat.lt_trichotomy i1 i2 with h | h | h
  · exact absurd l12 (h2.2 i1 h)
  · exact h
  · exact absurd (linked_symm grids distance_km l12) (h1.2 i2 h)

theorem mem_clusterMembers_iff (grids : List Grid) (distance_km : ℚ) {i j : Nat}
    (hi : i < grids.length) :
    j ∈ clusterMembers grids distance_km i ↔
      j < grids.length ∧ linked grids distance_km i j := by
  unfold clusterMembers
  simp only [List.mem_filter, List.mem_range]
  rw [← linked_iff_linkB grids distance_km hi]

theorem reps_flatMap_members_perm (grids : List Grid) (distance_km : ℚ) :
    ((clusterReps grids distance_km).flatMap (clusterMembers grids distance_km)).Perm
      (List.range grids.length) := by
  have hrepmem : ∀ i ∈ clusterReps grids distance_km, IsRep grids distance_km i :=
    fun i hi => (mem_clusterReps_iff grids distance_km).mp hi
  apply List.perm_of_nodup_nodup_toFinset_eq
  · apply List.nodup_flatMap.mpr
    constructor
    · intro i _
      exact (List.nodup_range _).filter _
    · have hnodup : (clusterReps grids distance_km).Nodup := (List.nodup_range _).filter _
      apply hnodup.pairwise_of_forall_ne
      intro i1 hi1 i2 hi2 hne
      intro x hx1 hx2
      have r1 := hrepmem i1 hi1
      have r2 := hrepmem i2 hi2
      have m1 := (mem_clusterMembers_iff grids distance_km r1.1).mp hx1
      have m2 := (mem_clusterMembers_iff grids distance_km r2.1).mp hx2
      exact hne (rep_unique grids distance_km r1 r2 m1.2 m2.2)
  · exact List.nodup_range _
  · apply List.toFinset.ext
    intro x
    simp only [List.mem_toFinset, List.mem_flatMap, List.mem_range]
    constructor
    · rintro ⟨i, hi, hx⟩
      exact ((mem_clusterMembers_iff grids distance_km (hrepmem i hi).1).mp hx).1
    · intro hx
      rcases exists_rep grids distance_km hx with ⟨i, hrep, hlink⟩
      exact ⟨i, (mem_clusterReps_iff grids distance_km).mpr hrep,
        (mem_clusterMembers_iff grids distance_km hrep.1).mpr ⟨hx, hlink⟩⟩

/-- The input grids fed to `merge_nearby_squares` carry one provider
each: the dictionaries built by the grid generators have no
`all_clinic_ids` key, which downstream code reads as `[clinic_id]`. -/
def FreshIds (grids : List Grid) : Prop :=
  ∀ g ∈ grids, g.all_clinic_ids = [g.clinic_id]

theorem flatMap_ids_of_fresh {grids : List Grid} (hfresh : FreshIds grids) :
    grids.flatMap Grid.all_clinic_ids = grids.map Grid.clinic_id := by
  induction grids with
  | nil => rfl
  | cons a l ih =>
    rw [List.flatMap_cons, List.map_cons, hfresh a (List.mem_cons_self a l),
      ih fun g hg => hfresh g (List.mem_cons_of_mem a hg)]
    rfl

theorem range_map_getD {α β : Type} (l : List α) (f : α → β) (d : α) :
    (List.range l.length).map (fun j => f (l.getD j d)) = l.map f := by
  induction l with
  | nil => rfl
  | cons a t ih =>
    rw [List.length_cons, List.range_succ_eq_map, List.map_cons, List.map_map]
    show f a :: (List.range t.length).map (fun j => f ((a :: t).getD (j + 1) d)) = _
    simp only [List.getD_cons_succ]
    rw [ih]
    rfl

theorem getD_mem_of_lt {α : Type} {l : List α} {j : Nat} (d : α) (h : j < l.length) :
    l.getD j d ∈ l := by
  rw [List.getD_eq_getElem l d h]
  exact List.getElem_mem h

/-- Transport a per-cluster aggregation to an aggregation over the
concatenation of all clusters. -/
theorem reps_map_members_agg {β : Type} (grids : List Grid) (distance_km : ℚ)
    (f : Nat → β) :
    ((clusterReps grids distance_km).flatMap
      fun i => (clusterMembers grids distance_km i).map f) =
      (((clusterReps grids distance_km).flatMap
        (clusterMembers grids distance_km)).map f) := by
  rw [List.map_flatMap]

/-- C9: `mergeNearby` conserves totals.  Every input catchment lands in
exactly one output cluster, so the summed weekly capacity of the outputs
equals that of the inputs, and the outputs' provider-id lists are, taken
together, a permutation of the inputs' provider ids. -/
theorem merge_nearby_squares_conserves (grids : List Grid) (distance_km : ℚ)
    (hfresh : FreshIds grids) :
    ((merge_nearby_squares grids distance_km).map Grid.weekly_hours).sum =
        (grids.map Grid.weekly_hours).sum ∧
      ((merge_nearby_squares grids distance_km).flatMap Grid.all_clinic_ids).Perm
        (grids.map Grid.clinic_id) := by
  unfold merge_nearby_squares
  split
  · exact ⟨rfl, by rw [flatMap_ids_of_fresh hfresh]⟩
  · have hperm := reps_flatMap_members_perm grids distance_km
    constructor
    · rw [List.map_map]
      have h1 : (Grid.weekly_hours ∘
            fun i => mergeCluster grids (clusterMembers grids distance_km i)) =
          fun i => ((clusterMembers grids distance_km i).map
            fun j => Grid.weekly_hours (grids.getD j default)).sum := by
        funext i
        show (((clusterMembers grids distance_km i).map fun j => grids.getD j default).map
            Grid.weekly_hours).sum =
          ((clusterMembers grids distance_km i).map
            fun j => Grid.weekly_hours (grids.getD j default)).sum
        rw [List.map_map]
        rfl
      rw [h1]
      have h2 : ∀ reps : List Nat,
          (reps.map fun i => ((clusterMembers grids distance_km i).map
            fun j => Grid.weekly_hours (grids.getD j default)).sum).sum =
          ((reps.flatMap fun i => (clusterMembers grids distance_km i).map
            fun j => Grid.weekly_hours (grids.getD j default))).sum := by
        intro reps
        rw [List.flatMap_def, List.sum_flatten, List.map_map]
        rfl
      rw [h2, reps_map_members_agg]
      rw [(hperm.map fun j => Grid.weekly_hours (grids.getD j default)).sum_eq]
      rw [range_map_getD grids Grid.weekly_hours default]
    · have h3 : ∀ i, Grid.all_clinic_ids
          (mergeCluster grids (clusterMembers grids distance_km i)) =
          (clusterMembers grids distance_km i).map
            fun j => Grid.clinic_id (grids.getD j default) := by
        intro i
        show (((clusterMembers grids distance_km i).map fun j => grids.getD j default).map
            Grid.clinic_id) =
          (clusterMembers grids distance_km i).map
            fun j => Grid.clinic_id (grids.getD j default)
        rw [List.map_map]
        rfl
      rw [List.flatMap_map]
      simp only [h3]
      rw [reps_map_members_agg]
      have h4 := hperm.map fun j => Grid.clinic_id (grids.getD j default)
      rw [range_map_getD grids Grid.clinic_id default] at h4
      exact h4

/-- The merged catchment the specification prescribes for a cluster:
geometry is the union of the member geometries, weekly capacity the sum
of member capacities, and the provider-id list the union
(concatenation) of the member provider-id lists. -/
def mergeClusterSpec (grids : List Grid) (members : List Nat) : Grid :=
  { clinic_id := (members.map fun j => (grids.getD j default).clinic_id).headD 0
    all_clinic_ids := members.flatMap fun j => (grids.getD j default).all_clinic_ids
    weekly_hours := (members.map fun j => (grids.getD j default).weekly_hours).sum
    geometry := members.flatMap fun j => (grids.getD j default).geometry }

/-- The content of claim C3: the merge output is exactly one merged
catchment per connected component of the proximity graph (single-link,
transitive closure of the centroid-distance relation), with geometry,
capacity and provider ids aggregated over the component's members, and
every input catchment belongs to exactly one emitted component. -/
def MergeSpecHolds (grids : List Grid) (distance_km : ℚ) : Prop :=
  ∃ components : List (List Nat),
    merge_nearby_squares grids distance_km = components.map (mergeClusterSpec grids) ∧
    (∀ mem ∈ components, ∃ i, i < grids.length ∧
      ∀ j, j ∈ mem ↔ j < grids.length ∧ linked grids distance_km i j) ∧
    (∀ j, j < grids.length → ∃! mem, mem ∈ components ∧ j ∈ mem)

theorem mergeCluster_eq_spec (grids : List Grid) (members : List Nat)
    (hfresh : FreshIds grids) (hmem : ∀ j ∈ members, j < grids.length) :
    mergeCluster grids members = mergeClusterSpec grids members := by
  have hids : (members.map fun j => (grids.getD j default).clinic_id) =
      members.flatMap fun j => (grids.getD j default).all_clinic_ids := by
    induction members with
    | nil => rfl
    | cons a t ih =>
      rw [List.map_cons, List.flatMap_cons,
        hfresh (grids.getD a default)
          (getD_mem_of_lt default (hmem a (List.mem_cons_self a t))),
        ih fun j hj => hmem j (List.mem_cons_of_mem a hj)]
      rfl
  unfold mergeCluster mergeClusterSpec
  simp only [List.map_map, List.flatMap_map]
  rw [← hids]
  rfl

/-- C3: for every positive threshold and every input list of
single-provider catchments, `merge_nearby_squares` computes exactly the
connected components of the proximity graph (single-link transitive
closure of the centroid distance check), and each emitted catchment
carries the union of member geometries, the sum of member capacities,
and the union of member provider ids. -/
theorem merge_nearby_squares_components (grids : List Grid) (distance_km : ℚ)
    (hpos : 0 < distance_km) (hfresh : FreshIds grids) :
    MergeSpecHolds grids distance_km := by
  refine ⟨(clusterReps grids distance_km).map (clusterMembers grids distance_km),
    ?_, ?_, ?_⟩
  · unfold merge_nearby_squares
    rw [if_neg (not_le.mpr hpos), List.map_map]
    apply List.map_congr_left
    intro i hi
    have hirep := (mem_clusterReps_iff grids distance_km).mp hi
    exact mergeCluster_eq_spec grids _ hfresh
      fun j hj => ((mem_clusterMembers_iff grids distance_km hirep.1).mp hj).1
  · intro mem hmem
    rcases List.mem_map.mp hmem with ⟨i, hi, rfl⟩
    have hirep := (mem_clusterReps_iff grids distance_km).mp hi
    exact ⟨i, hirep.1, fun j => mem_clusterMembers_iff grids distance_km hirep.1⟩
  · intro j hj
    rcases exists_rep grids distance_km hj with ⟨i, hrep, hlink⟩
    refine ⟨clusterMembers grids distance_km i,
      ⟨List.mem_map.mpr ⟨i, (mem_clusterReps_iff grids distance_km).mpr hrep, rfl⟩,
        (mem_clusterMembers_iff grids distance_km hrep.1).mpr ⟨hj, hlink⟩⟩, ?_⟩
    rintro mem2 ⟨hmem2, hjmem2⟩
    rcases List.mem_map.mp hmem2 with ⟨i2, hi2, rfl⟩
    have hrep2 := (mem_clusterReps_iff grids distance_km).mp hi2
    have hlink2 := ((mem_clusterMembers_iff grids distance_km hrep2.1).mp hjmem2).2
    rw [rep_unique grids distance_km hrep2 hrep hlink2 hlink]

/-- Two single-provider catchments: unit squares at the origin and four
degrees east, with 1 and 2 weekly hours. -/
def componentsWitnessGrids : List Grid :=
  [⟨1, [1], 1, [⟨0, 1, 0, 1⟩]⟩, ⟨2, [2], 2, [⟨4, 5, 0, 1⟩]⟩]

/-- Witness: the component characterization holds for a concrete input
and the positive threshold 111 km. -/
theorem merge_nearby_squares_components_witness :
    (0 : ℚ) < 111 ∧ FreshIds componentsWitnessGrids ∧
      MergeSpecHolds componentsWitnessGrids 111 :=
  ⟨by norm_num, by unfold FreshIds; with_unfolding_all decide,
    merge_nearby_squares_components componentsWitnessGrids 111 (by norm_num)
      (by unfold FreshIds; with_unfolding_all decide)⟩

/-- Two single-provider catchments sharing their square, with 3 and
4 weekly hours. -/
def conservesWitnessGrids : List Grid :=
  [⟨1, [1], 3, [⟨0, 1, 0, 1⟩]⟩, ⟨2, [2], 4, [⟨0, 1, 0, 1⟩]⟩]

/-- Witness: totals are conserved on a concrete merge that collapses
two catchments into one. -/
theorem merge_nearby_squares_conserves_witness :
    FreshIds conservesWitnessGrids ∧
      (((merge_nearby_squares conservesWitnessGrids 5).map Grid.weekly_hours).sum =
          (conservesWitnessGrids.map Grid.weekly_hours).sum ∧
        ((merge_nearby_squares conservesWitnessGrids 5).flatMap Grid.all_clinic_ids).Perm
          (conservesWitnessGrids.map Grid.clinic_id)) :=
  ⟨by unfold FreshIds; with_unfolding_all decide,
    merge_nearby_squares_conserves conservesWitnessGrids 5
      (by unfold FreshIds; with_unfolding_all decide)⟩

/-- C6: the claim states that a window longer than 7 days makes the
whole attribution call fail with `InvalidWindowError`.  No such
exception exists anywhere in the repository: on a 10-day window the call
returns a normal metrics list, identical to the one for the silently
clamped 6-day window. -/
theorem long_window_not_rejected :
    (calculate_region_capacity clampRegion [] 0 10).1 =
        (calculate_region_capacity clampRegion [] 0 6).1 ∧
      ((calculate_region_capacity clampRegion [] 0 10).1.map Metric.status) = ["Empty"] := by
  with_unfolding_all decide
